import Mathlib

/-!
Verification development for the Anti-VPN-List repository.

This file shallowly embeds the JavaScript sources (`utils/RadixTree.js`,
`utils/iputils.js`, `scripts/download.js`'s `filterContainedCIDRsRadix`,
`utils/IpChecker.js`) into Lean and proves or refutes the claims of the
specification against that embedding.

Modelling conventions:
* JavaScript strings are `List Char` (`JStr`); Lean string literals are
  converted with `jstr`.
* JavaScript numbers are modelled exactly with `Int`.  `NaN` is modelled
  as `none` in `Option Int`.  All the number-producing operations used by
  the sources (`parseInt`, 32-bit `<<`, `&`, `~`, `>>>`, `+`, `-`,
  integral `2 ** k`) are integral, so `Int` is exact on them; the only
  float-valued expressions in the sources (`2 ** k` for negative or
  non-integral `k` inside `cidrToRange`) are outside every theorem's
  domain and are mapped to an explicit junk value, noted at the
  definition.
* JavaScript `Array.prototype.sort` (stable since ES2019) is modelled by
  the stable `List.insertionSort`.  For a consistent comparator this is
  the unique result mandated by the ECMAScript specification.
-/

/-- JavaScript strings, as lists of characters. -/
abbrev JStr := List Char

/-- Convert a Lean string literal to the `JStr` representation. -/
def jstr (s : String) : JStr := s.data

/-- Characters treated as whitespace by `parseInt` (ASCII fragment of the
ECMAScript WhiteSpace/LineTerminator classes, which is all that can occur
in the repository's feeds). -/
def isJsSpace (c : Char) : Bool :=
  c == ' ' || c == '\t' || c == '\n' || c == '\r' || c == '\x0b' || c == '\x0c'

/-- Decimal digit test. -/
def isDigit10 (c : Char) : Bool := '0' ≤ c && c ≤ '9'

/-- Hexadecimal digit test. -/
def isDigit16 (c : Char) : Bool :=
  isDigit10 c || ('a' ≤ c && c ≤ 'f') || ('A' ≤ c && c ≤ 'F')

/-- Value of a decimal digit. -/
def digitVal10 (c : Char) : Nat := c.toNat - 48

/-- Value of a hexadecimal digit. -/
def digitVal16 (c : Char) : Nat :=
  if isDigit10 c then c.toNat - 48
  else if 'a' ≤ c && c ≤ 'f' then c.toNat - 87
  else c.toNat - 55

/-- Fold a list of digit values in the given base into a natural number. -/
def digitsToNat (base : Nat) (ds : List Nat) : Nat :=
  ds.foldl (fun acc d => acc * base + d) 0

/-- Core of JavaScript `parseInt`: skip leading whitespace, read an
optional sign, optionally recognise a `0x`/`0X` prefix (only when the
radix argument was omitted, as in `ipToNumber` and the dedup comparator),
then read the longest prefix of digits.  `none` models `NaN` (no digits).
Trailing garbage is ignored, exactly as in JavaScript. -/
def parseIntCore (allowHex : Bool) (s : JStr) : Option Int :=
  let s1 := s.dropWhile isJsSpace
  let (sign, s2) : Int × JStr :=
    match s1 with
    | '-' :: rest => (-1, rest)
    | '+' :: rest => (1, rest)
    | _ => (1, s1)
  match s2 with
  | '0' :: 'x' :: rest =>
    if allowHex then
      let ds := rest.takeWhile isDigit16
      if ds.isEmpty then none
      else some (sign * (digitsToNat 16 (ds.map digitVal16) : Int))
    else
      some 0
  | '0' :: 'X' :: rest =>
    if allowHex then
      let ds := rest.takeWhile isDigit16
      if ds.isEmpty then none
      else some (sign * (digitsToNat 16 (ds.map digitVal16) : Int))
    else
      some 0
  | _ =>
    let ds := s2.takeWhile isDigit10
    if ds.isEmpty then none
    else some (sign * (digitsToNat 10 (ds.map digitVal10) : Int))

/-- `parseInt(s)` with the radix argument omitted. -/
def parseIntJS (s : JStr) : Option Int := parseIntCore true s

/-- `parseInt(s, 10)`. -/
def parseIntJS10 (s : JStr) : Option Int := parseIntCore false s

/-- ECMAScript `ToUint32` on an integral number. -/
def toUint32 (n : Int) : Int := n % 4294967296

/-- ECMAScript `ToInt32` on an integral number. -/
def toInt32 (n : Int) : Int :=
  let u := toUint32 n
  if u < 2147483648 then u else u - 4294967296

/-- `ToInt32` of a possibly-`NaN` number: `ToInt32(NaN) = 0`. -/
def i32OfOpt (x : Option Int) : Int :=
  match x with
  | none => 0
  | some v => toInt32 v

/-- JavaScript 32-bit bitwise AND (`a & b`). -/
def and32 (a b : Int) : Int :=
  toInt32 (Int.ofNat ((toUint32 a).toNat &&& (toUint32 b).toNat))

/-- JavaScript bitwise NOT (`~a`): `ToInt32(a)` then complement. -/
def not32 (a : Int) : Int := -(toInt32 a) - 1

/-- JavaScript split on a single-character separator; always returns at
least one (possibly empty) piece, like `"".split(".") == [""]`. -/
def splitOnChar (sep : Char) (s : JStr) : List JStr :=
  s.foldr
    (fun ch acc =>
      match acc with
      | [] => [[ch]]
      | h :: t => if ch == sep then [] :: h :: t else (ch :: h) :: t)
    [[]]

/-- JavaScript `String.prototype.includes` for a single character. -/
def containsChar (c : Char) (s : JStr) : Bool := s.any (· == c)

/-- `String.prototype.slice(0, e)` where `e` is a possibly-`NaN` number:
`NaN` becomes `0`; a negative end counts from the end of the string. -/
def jsSliceTo (s : JStr) (e : Option Int) : JStr :=
  match e with
  | none => []
  | some m => if m < 0 then s.take ((s.length : Int) + m).toNat else s.take m.toNat

/-- `String.prototype.padStart(8, "0")`. -/
def padStart8 (s : JStr) : JStr :=
  if 8 ≤ s.length then s else List.replicate (8 - s.length) '0' ++ s

/-- Binary digits of a natural number, most significant first
(`n.toString(2)` for `n ≥ 0`). -/
def natToBin (n : Nat) : JStr := Nat.toDigits 2 n

/-- `Number.prototype.toString(2)` on an integral or `NaN` value:
`NaN.toString(2) == "NaN"`, negative numbers get a leading minus sign. -/
def numToString2 (x : Option Int) : JStr :=
  match x with
  | none => jstr "NaN"
  | some n =>
    if n < 0 then '-' :: natToBin n.natAbs
    else natToBin n.natAbs

/-- Decimal string of a natural number (`Number.prototype.toString()`). -/
def natToDec (n : Nat) : JStr := Nat.toDigits 10 n

/--
`ipToNumber` from `utils/iputils.js`:

    ip.split(".").reduce((acc, octet) => (acc << 8) + parseInt(octet), 0)

`<<` is the 32-bit *signed* shift, so the accumulator wraps to a negative
number for addresses at or above `128.0.0.0`; `parseInt` of a malformed
octet yields `NaN` (`none`), which propagates through `+`. -/
def ipToNumber (ip : JStr) : Option Int :=
  (splitOnChar '.' ip).foldl
    (fun acc octet =>
      match parseIntJS octet with
      | none => none
      | some v => some (toInt32 (i32OfOpt acc * 256) + v))
    (some 0)

/--
`numberToIp` from `utils/iputils.js`:

    [(num >>> 24) & 0xff, (num >>> 16) & 0xff, (num >>> 8) & 0xff, num & 0xff].join(".")

computed here through the unsigned reinterpretation `toUint32 num`. -/
def numberToIp (num : Int) : JStr :=
  let u := (toUint32 num).toNat
  natToDec (u / 16777216 % 256) ++ '.' ::
    (natToDec (u / 65536 % 256) ++ '.' ::
      (natToDec (u / 256 % 256) ++ '.' :: natToDec (u % 256)))

/--
`ipToBinary` from `utils/iputils.js`:

    ip.split(".").map((octet) => parseInt(octet, 10).toString(2).padStart(8, "0")).join("")
-/
def ipToBinary (ip : JStr) : JStr :=
  ((splitOnChar '.' ip).map fun octet =>
    padStart8 (numToString2 (parseIntJS10 octet))).flatten

/--
`cidrToBinaryPrefix` from `utils/iputils.js`:

    const [ip, mask] = cidr.split("/");
    return ipToBinary(ip).slice(0, parseInt(mask));

When the string holds no `/`, `mask` is `undefined` and
`parseInt(undefined)` is `NaN`; `parts.getD 1 []` feeds the empty string
to `parseIntJS`, which likewise yields `none`. -/
def cidrToBinaryPrefix (cidr : JStr) : JStr :=
  let parts := splitOnChar '/' cidr
  jsSliceTo (ipToBinary (parts.getD 0 [])) (parseIntJS (parts.getD 1 []))

/-- Length of the common prefix of two strings
(`RadixTree._commonPrefixLength`). -/
def commonPrefixLength : JStr → JStr → Nat
  | a :: as, b :: bs => if a == b then commonPrefixLength as bs + 1 else 0
  | _, _ => 0

/-- A node of the radix tree from `utils/RadixTree.js`.  `children` is the
JavaScript `Map` as an association list in insertion order: `Map`
iteration order is insertion order, `Map.set` of a fresh key appends, and
the in-place mutation of a child keeps its position and its key. -/
inductive RadixNode where
  | mk (value : JStr) (children : List (JStr × RadixNode)) (isEnd : Bool)

/-- The stored fragment of a node. -/
def RadixNode.value : RadixNode → JStr
  | .mk v _ _ => v

/-- The child map of a node. -/
def RadixNode.children : RadixNode → List (JStr × RadixNode)
  | .mk _ ch _ => ch

/-- The terminal flag of a node. -/
def RadixNode.isEnd : RadixNode → Bool
  | .mk _ _ e => e

/-- A fresh tree (`new RadixTree()` has a root `new RadixNode("")`). -/
def RadixNode.empty : RadixNode := .mk [] [] false

theorem RadixNode.sizeOf_children_lt (n : RadixNode) :
    sizeOf n.children < sizeOf n := by
  cases n with
  | mk v ch e => simp [RadixNode.children]; omega

/-- Scan the child map, in iteration order, for the first entry whose key
shares a nonempty common prefix with `p`; return the entries before it,
the entry, and the entries after it. -/
def scanChildren (p : JStr) :
    List (JStr × RadixNode) → Option (List (JStr × RadixNode) × (JStr × RadixNode) × List (JStr × RadixNode))
  | [] => none
  | (k, c) :: rest =>
    if 0 < commonPrefixLength p k then some ([], (k, c), rest)
    else
      match scanChildren p rest with
      | none => none
      | some (pre, e, post) => some ((k, c) :: pre, e, post)

theorem scanChildren_pos {p : JStr} :
    ∀ {ch pre e post}, scanChildren p ch = some (pre, e, post) →
      0 < commonPrefixLength p e.1 := by
  intro ch
  induction ch with
  | nil => intro pre e post h; simp [scanChildren] at h
  | cons hd tl ih =>
    intro pre e post h
    obtain ⟨k, c⟩ := hd
    by_cases hk : 0 < commonPrefixLength p k
    · simp only [scanChildren, if_pos hk, Option.some_inj, Prod.mk.injEq] at h
      obtain ⟨-, he, -⟩ := h
      rw [← he]
      exact hk
    · simp only [scanChildren, if_neg hk] at h
      cases hsc : scanChildren p tl with
      | none => rw [hsc] at h; simp at h
      | some v =>
        obtain ⟨pre1, e1, post1⟩ := v
        rw [hsc] at h
        simp only [Option.some_inj, Prod.mk.injEq] at h
        obtain ⟨-, he, -⟩ := h
        rw [← he]
        exact ih hsc

/--
`RadixTree.insert` from `utils/RadixTree.js`, written as a function from
the old root to the new root.  The loop walks down the tree consuming the
prefix; the recursion here mirrors one loop iteration:

* empty remaining prefix: the loop exits and sets `node.isEnd = true`;
* no child shares a nonempty common prefix: append a fresh terminal leaf
  under the full remaining prefix;
* otherwise, for the first such child (key `k`, node `c`), with
  `q = commonPrefixLength`: if `k` extends past the common part the child
  is split in place — its `value` becomes the common prefix and its old
  contents are demoted under the remaining key — but, exactly as in the
  source, the *parent map key stays `k`*; then the walk continues into the
  child with the rest of the prefix.
-/
def RadixNode.insertFuel : Nat → RadixNode → JStr → RadixNode
  | 0, node, _ => node
  | fuel + 1, .mk v ch e, p =>
    if p = [] then .mk v ch true
    else
      match scanChildren p ch with
      | none => .mk v (ch ++ [(p, .mk p [] true)]) e
      | some (pre, (k, c), post) =>
        let q := commonPrefixLength p k
        let c1 : RadixNode :=
          if (k.drop q).isEmpty then c
          else .mk (p.take q) [(k.drop q, .mk (k.drop q) c.children c.isEnd)] false
        .mk v (pre ++ (k, RadixNode.insertFuel fuel c1 (p.drop q)) :: post) e

/-- `RadixTree.insert` itself.  Every loop iteration consumes at least one
character of the prefix (`scanChildren` only returns matches with a
positive common-prefix length), so `p.length + 1` units of fuel are never
exhausted; `RadixNode.insertFuel_congr` below makes this exact. -/
def RadixNode.insert (node : RadixNode) (p : JStr) : RadixNode :=
  RadixNode.insertFuel (p.length + 1) node p

/-- The fuel argument of `insertFuel` is irrelevant as long as it exceeds
the prefix length: the walk consumes at least one character per step. -/
theorem RadixNode.insertFuel_congr :
    ∀ (n m : Nat) (node : RadixNode) (p : JStr), p.length < n → p.length < m →
      RadixNode.insertFuel n node p = RadixNode.insertFuel m node p := by
  intro n
  induction n with
  | zero => intro m node p hn; omega
  | succ n ih =>
    intro m node p hn hm
    match m with
    | 0 => omega
    | m + 1 =>
      obtain ⟨v, ch, e⟩ := node
      simp only [RadixNode.insertFuel]
      by_cases hp : p = []
      · simp [hp]
      · simp only [if_neg hp]
        cases hscan : scanChildren p ch with
        | none => rfl
        | some t =>
          obtain ⟨pre, ⟨k, c⟩, post⟩ := t
          have hq : 0 < commonPrefixLength p k := scanChildren_pos hscan
          have hlen : (p.drop (commonPrefixLength p k)).length < p.length := by
            have : p.length ≠ 0 := by
              intro h0
              exact hp (List.eq_nil_of_length_eq_zero h0)
            simp [List.length_drop]
            omega
          exact congrArg (fun x => RadixNode.mk v (pre ++ (k, x) :: post) e)
            (ih m _ _ (by omega) (by omega))

/--
`RadixTree.search` from `utils/RadixTree.js`:

    while (binaryIP.length > 0) {
      for (const [key, child] of node.children.entries())
        if (binaryIP.startsWith(key)) { consume; if (child.isEnd) return true; ... }
      if (!found) break;
    }
    return node.isEnd;

The walk consumes the first child key that is a prefix of the remaining
string, returns `true` as soon as a traversed child is terminal, and
otherwise returns the final node's flag. -/
def RadixNode.searchFuel : Nat → RadixNode → JStr → Bool
  | 0, node, _ => node.isEnd
  | fuel + 1, node, s =>
    if s.isEmpty then node.isEnd
    else
      match node.children.find? (fun kc => List.isPrefixOf kc.1 s) with
      | none => node.isEnd
      | some (k, c) => if c.isEnd then true else RadixNode.searchFuel fuel c (s.drop k.length)

/-- `RadixTree.search` itself.  Every tree reachable by `insert` from the
empty tree has only nonempty child keys, so every loop iteration consumes
at least one character and `s.length + 1` units of fuel are never
exhausted (on a hypothetical tree with an empty key the JavaScript loop
would not terminate at all). -/
def RadixNode.search (node : RadixNode) (s : JStr) : Bool :=
  RadixNode.searchFuel (s.length + 1) node s

/-- `true` when some immediate child of `node` is stored in the map under
a key different from that child's own `value` field — a direct violation
of the claimed key/fragment agreement invariant. -/
def RadixNode.childKeyMismatch (node : RadixNode) : Bool :=
  node.children.any fun kc => kc.1 != kc.2.value

/-- The mask part of an entry: `entry.split("/")[1]`. -/
def maskPart (e : JStr) : JStr := (splitOnChar '/' e).getD 1 []

/--
The sort comparator of `CIDRProcessor.filterContainedCIDRsRadix`:

    const isCidrA = a.includes("/"); const isCidrB = b.includes("/");
    if (isCidrA && isCidrB) return parseInt(a.split("/")[1]) - parseInt(b.split("/")[1]);
    else if (isCidrA) return -1; else if (isCidrB) return 1; else return 0;

When either `parseInt` is `NaN` the subtraction is `NaN`, which the
ECMAScript sort machinery replaces by `+0`. -/
def sortComp (a b : JStr) : Int :=
  if containsChar '/' a then
    if containsChar '/' b then
      match parseIntJS (maskPart a), parseIntJS (maskPart b) with
      | some x, some y => x - y
      | _, _ => 0
    else -1
  else if containsChar '/' b then 1 else 0

/-- The order relation induced by `sortComp` ("`a` may come before `b`"). -/
def compLE (a b : JStr) : Prop := sortComp a b ≤ 0

instance : DecidableRel compLE := fun a b => inferInstanceAs (Decidable (_ ≤ 0))

/-- The binary key under which the dedup pass looks an entry up in the
trie: `cidr.includes("/") ? cidrToBinaryPrefix(cidr) : ipToBinary(cidr)`. -/
def entryBinary (e : JStr) : JStr :=
  if containsChar '/' e then cidrToBinaryPrefix e else ipToBinary e

/-- The filtering loop of `filterContainedCIDRsRadix`: keep an entry iff
`tree.search` misses, and insert the kept entry. -/
def dedupLoop (tree : RadixNode) : List JStr → List JStr
  | [] => []
  | e :: rest =>
    if tree.search (entryBinary e) then dedupLoop tree rest
    else e :: dedupLoop (tree.insert (entryBinary e)) rest

/--
`CIDRProcessor.filterContainedCIDRsRadix` from `scripts/download.js`, as a
function of the candidate list (the keys of `this.cidrMap` in insertion
order, which are pairwise distinct): sort by the prefix-length comparator
(stably), then run the trie-driven filtering loop on a fresh tree.  The
returned `Set` preserves the kept order, so the result is the kept list.
-/
def filterContainedCIDRsRadix (entries : List JStr) : List JStr :=
  dedupLoop RadixNode.empty (List.insertionSort compLE entries)

/-- JavaScript `Number()` on the strings this repository feeds it (an
optional sign and decimal digits; `Number("") = 0`).  Exponentials, dots
and hex forms would be float-valued or out of the integral fragment and
are mapped to `none`; every theorem below stays inside the modelled
fragment. -/
def numberJS (s : JStr) : Option Int :=
  let t := s.dropWhile isJsSpace
  let t := t.reverse.dropWhile isJsSpace |>.reverse
  if t.isEmpty then some 0
  else
    let (sign, t2) : Int × JStr :=
      match t with
      | '-' :: rest => (-1, rest)
      | '+' :: rest => (1, rest)
      | _ => (1, t)
    if t2.isEmpty then none
    else if t2.all isDigit10 then some (sign * (digitsToNat 10 (t2.map digitVal10) : Int))
    else none

/--
`cidrToRange` from `utils/iputils.js`:

    const [ip, prefix] = cidr.split("/");
    const ipNum = ipToNumber(ip);
    const maskBits = 32 - Number(prefix);
    const numAddresses = 2 ** maskBits;
    const start = ipNum & ~(numAddresses - 1);
    const end = start + numAddresses - 1;

For an integral mask value `m ≤ 32` every step is integral and modelled
exactly (`&` and `~` through `ToInt32`).  For `m > 32` or a non-numeric
mask, `2 ** maskBits` is a float or `NaN` and `end` is not an integer;
that fragment is outside the model and is mapped to the junk range
`(0, -1)`, which no theorem's hypotheses admit. -/
def cidrToRange (cidr : JStr) : Int × Int :=
  let parts := splitOnChar '/' cidr
  let ip := parts.getD 0 []
  let maskStr := parts.getD 1 []
  match numberJS maskStr with
  | some m =>
    if m ≤ 32 then
      let numAddresses : Int := 2 ^ (32 - m).toNat
      let start := and32 (i32OfOpt (ipToNumber ip)) (not32 (numAddresses - 1))
      (start, start + numAddresses - 1)
    else (0, -1)
  | none => (0, -1)

/-- One line of the blocklist as `IpChecker.load` normalises it:
`line.includes("/") ? line : line + "/32"`. -/
def entryLine (line : JStr) : JStr :=
  if containsChar '/' line then line else line ++ jstr "/32"

/-- The numeric range `IpChecker.load` derives from one line. -/
def entryRange (line : JStr) : Int × Int := cidrToRange (entryLine line)

/-- The comparator of `this.#ranges.sort((a, b) => a[0] - b[0])`. -/
def rangeLE (p q : Int × Int) : Prop := p.1 ≤ q.1

instance : DecidableRel rangeLE := fun p q => inferInstanceAs (Decidable (_ ≤ _))

/-- `IpChecker.load`: map every non-empty line to its numeric range and
sort by range start (the stable ECMAScript sort, with an always-consistent
numeric comparator). -/
def IpChecker.load (lines : List JStr) : List (Int × Int) :=
  List.insertionSort rangeLE (lines.map entryRange)

/-- The binary-search loop of `IpChecker.isBlocked`, on the sorted range
array.  `mid = Math.floor((left + right) / 2)`; `/` on `Int` is floor
division for the positive divisor 2.  The array access `this.#ranges[mid]`
is modelled with a junk default, unreachable while `0 ≤ left ≤ mid ≤
right < length`. -/
def searchRanges (ranges : List (Int × Int)) (ipNum left right : Int) : Bool :=
  if left ≤ right then
    if ipNum < (ranges.getD ((left + right) / 2).toNat (0, -1)).1 then
      searchRanges ranges ipNum left ((left + right) / 2 - 1)
    else if (ranges.getD ((left + right) / 2).toNat (0, -1)).2 < ipNum then
      searchRanges ranges ipNum ((left + right) / 2 + 1) right
    else true
  else false
  termination_by (right + 1 - left).toNat
  decreasing_by
    · omega
    · omega

/-- `IpChecker.isBlocked`: a string argument goes through `ipToNumber`; a
numeric argument is used as is.  Comparisons against `NaN` are always
false, so a `NaN` query hits the first probe of a non-empty array. -/
def IpChecker.isBlocked (ranges : List (Int × Int)) (ip : Option Int) : Bool :=
  match ip with
  | some n => searchRanges ranges n 0 ((ranges.length : Int) - 1)
  | none => !ranges.isEmpty

/--
`rangeToCIDRs` from `utils/iputils.js`.  The inner `while (maxSize > 0)`
loop that shrinks the mask is `rangeMaxSize` (its result is the final
`maxSize` after the `maxSize++`); the outer loop is `rangeLoop`.
`throw new Error(...)` is the `Except.error` case.  A `NaN` endpoint makes
both `start > end` and `start <= end` false, so the function returns `[]`
without throwing. -/
def rangeMaxSizeGo (start e : Int) : Nat → Nat
  | 0 => 0
  | m + 1 =>
    let mask := not32 (2 ^ (32 - (m + 1)) - 1)
    if and32 start mask = start ∧ start + 2 ^ (32 - (m + 1)) - 1 ≤ e then
      rangeMaxSizeGo start e m
    else m + 1

/-- The mask size chosen for the block at `start`: the source's inner loop
started at `maxSize = 32`, followed by `maxSize++`. -/
def rangeMaxSize (start e : Int) : Nat := rangeMaxSizeGo start e 32 + 1

/-- The outer `while (start <= end)` loop of `rangeToCIDRs`. -/
def rangeLoop (e : Int) (start : Int) : List JStr :=
  if h : start ≤ e then
    (numberToIp start ++ '/' :: natToDec (rangeMaxSize start e)) ::
      rangeLoop e (start + 2 ^ (32 - rangeMaxSize start e))
  else []
  termination_by (e + 1 - start).toNat
  decreasing_by
    have h1 : (1 : Int) ≤ 2 ^ (32 - rangeMaxSize start e) := by
      exact_mod_cast Nat.one_le_two_pow
    omega

deriving instance DecidableEq for Except

/-- `rangeToCIDRs(startIP, endIP)` itself. -/
def rangeToCIDRs (startIP endIP : JStr) : Except JStr (List JStr) :=
  match ipToNumber startIP, ipToNumber endIP with
  | some s, some e =>
    if e < s then .error (jstr "Start IP must be less than or equal to End IP")
    else .ok (rangeLoop e s)
  | _, _ => .ok []

/-- A stable insertion sort leaves an already-sorted list unchanged; this
only needs the adjacent-pairs order, not transitivity. -/
theorem insertionSort_eq_self_of_pairwise {α : Type} (r : α → α → Prop)
    [DecidableRel r] : ∀ l : List α, l.Pairwise r → List.insertionSort r l = l := by
  intro l
  induction l with
  | nil => intro _; rfl
  | cons a l ih =>
    intro hp
    have htail := List.Pairwise.of_cons hp
    simp only [List.insertionSort, ih htail]
    cases l with
    | nil => rfl
    | cons b l2 =>
      have hab : r a b := (List.pairwise_cons.mp hp).1 b (by simp)
      simp [List.orderedInsert, if_pos hab]

/-- `orderedInsert` preserves pairwise sortedness, assuming totality and
transitivity only on elements satisfying `G`. -/
theorem pairwise_orderedInsert {α : Type} (r : α → α → Prop) [DecidableRel r]
    (G : α → Prop)
    (htot : ∀ a b, G a → G b → r a b ∨ r b a)
    (htrans : ∀ a b c, G a → G b → G c → r a b → r b c → r a c) :
    ∀ (a : α) (l : List α), G a → (∀ x ∈ l, G x) → l.Pairwise r →
      (List.orderedInsert r a l).Pairwise r := by
  intro a l
  induction l with
  | nil => intro _ _ _; simp
  | cons b l2 ih =>
    intro hGa hGl hp
    by_cases hab : r a b
    · rw [List.orderedInsert, if_pos hab]
      refine List.pairwise_cons.mpr ⟨?_, hp⟩
      intro y hy
      rcases List.mem_cons.mp hy with hyb | hyl
      · rw [hyb]; exact hab
      · exact htrans a b y hGa (hGl b (by simp)) (hGl y (by simp [hyl]))
          hab ((List.pairwise_cons.mp hp).1 y hyl)
    · rw [List.orderedInsert, if_neg hab]
      have hba : r b a := by
        rcases htot a b hGa (hGl b (by simp)) with h | h
        · exact absurd h hab
        · exact h
      refine List.pairwise_cons.mpr ⟨?_, ?_⟩
      · intro y hy
        rcases (List.mem_orderedInsert r).mp hy with hya | hyl
        · rw [hya]; exact hba
        · exact (List.pairwise_cons.mp hp).1 y hyl
      · exact ih hGa (fun x hx => hGl x (by simp [hx])) (List.Pairwise.of_cons hp)

/-- `insertionSort` sorts, assuming totality and transitivity only on
elements satisfying `G`. -/
theorem pairwise_insertionSort {α : Type} (r : α → α → Prop) [DecidableRel r]
    (G : α → Prop)
    (htot : ∀ a b, G a → G b → r a b ∨ r b a)
    (htrans : ∀ a b c, G a → G b → G c → r a b → r b c → r a c) :
    ∀ l : List α, (∀ x ∈ l, G x) → (List.insertionSort r l).Pairwise r := by
  intro l
  induction l with
  | nil => intro _; simp
  | cons a l2 ih =>
    intro hGl
    have hGmem : ∀ x ∈ List.insertionSort r l2, G x := by
      intro x hx
      exact hGl x (by
        have := (List.perm_insertionSort r l2).mem_iff.mp hx
        simp [this])
    exact pairwise_orderedInsert r G htot htrans a (List.insertionSort r l2)
      (hGl a (by simp)) hGmem (ih fun x hx => hGl x (by simp [hx]))

/-- The filtering loop only ever drops entries. -/
theorem dedupLoop_sublist (t : RadixNode) :
    ∀ l : List JStr, (dedupLoop t l).Sublist l := by
  intro l
  induction l generalizing t with
  | nil => simp [dedupLoop]
  | cons e rest ih =>
    rw [dedupLoop]
    by_cases hs : t.search (entryBinary e) = true
    · rw [if_pos hs]
      exact (ih t).trans (List.sublist_cons_self e rest)
    · rw [if_neg hs]
      exact (ih (t.insert (entryBinary e))).cons₂ e

/-- Replaying the kept list through the filtering loop keeps everything:
each kept entry was kept because `search` missed on exactly the tree built
from the previously kept entries, and the replay rebuilds that same tree.
This holds for every tree behaviour — it needs nothing about the trie. -/
theorem dedupLoop_idem (t : RadixNode) :
    ∀ l : List JStr, dedupLoop t (dedupLoop t l) = dedupLoop t l := by
  intro l
  induction l generalizing t with
  | nil => simp [dedupLoop]
  | cons e rest ih =>
    rw [dedupLoop]
    by_cases hs : t.search (entryBinary e) = true
    · rw [if_pos hs]
      exact ih t
    · rw [if_neg hs]
      conv =>
        lhs
        rw [dedupLoop, if_neg hs]
      rw [ih (t.insert (entryBinary e))]

/-- An entry is *good* when its comparator key is an actual number: if it
contains a `/`, `parseInt` of its mask part is not `NaN`.  On good entries
the JavaScript sort comparator is consistent; the `NaN → +0` collapse on
bad entries is what breaks its transitivity. -/
def GoodEntry (e : JStr) : Prop :=
  containsChar '/' e = true → (parseIntJS (maskPart e)).isSome = true

instance : DecidablePred GoodEntry := fun e =>
  inferInstanceAs (Decidable (_ → _))

theorem compLE_total (a b : JStr) (ha : GoodEntry a) (hb : GoodEntry b) :
    compLE a b ∨ compLE b a := by
  cases hca : containsChar '/' a <;> cases hcb : containsChar '/' b
  · left; simp [compLE, sortComp, hca, hcb]
  · right; simp [compLE, sortComp, hca, hcb]
  · left; simp [compLE, sortComp, hca, hcb]
  · obtain ⟨x, hx⟩ := Option.isSome_iff_exists.mp (ha hca)
    obtain ⟨y, hy⟩ := Option.isSome_iff_exists.mp (hb hcb)
    rcases Int.le_total x y with hxy | hyx
    · left; simp [compLE, sortComp, hca, hcb, hx, hy]; omega
    · right; simp [compLE, sortComp, hca, hcb, hx, hy]; omega

theorem compLE_trans (a b c : JStr) (ha : GoodEntry a) (hb : GoodEntry b)
    (hc : GoodEntry c) (hab : compLE a b) (hbc : compLE b c) : compLE a c := by
  unfold compLE sortComp at hab hbc ⊢
  cases hca : containsChar '/' a <;> cases hcb : containsChar '/' b <;>
    cases hcc : containsChar '/' c <;>
      simp only [hca, hcb, hcc, Bool.false_eq_true, if_false, if_true] at hab hbc ⊢ <;>
        try simp_all
  obtain ⟨x, hx⟩ := Option.isSome_iff_exists.mp (ha hca)
  obtain ⟨y, hy⟩ := Option.isSome_iff_exists.mp (hb hcb)
  obtain ⟨z, hz⟩ := Option.isSome_iff_exists.mp (hc hcc)
  simp only [hx, hy] at hab
  simp only [hy, hz] at hbc
  simp only [hx, hz]
  omega

theorem getD_of_lt {α : Type} (l : List α) (i : Nat) (d : α) (h : i < l.length) :
    l.getD i d = l[i] := by
  simp [List.getD, List.getElem?_eq_getElem h]

/-- Correctness of the binary-search loop on a start-sorted, pairwise
disjoint range array: within a window that contains every candidate
index, the loop answers `true` exactly when some range contains the
query.  The induction is on an upper bound of the window size. -/
theorem searchRanges_iff (rs : List (Int × Int)) (a : Int)
    (hse : ∀ p ∈ rs, p.1 ≤ p.2)
    (hsd : ∀ i j : Nat, i < j → j < rs.length →
      (rs.getD i (0, -1)).2 < (rs.getD j (0, -1)).1) :
    ∀ (n : Nat) (l r : Int), (r + 1 - l).toNat ≤ n → 0 ≤ l → r < rs.length →
      (∀ i : Nat, i < rs.length → (rs.getD i (0, -1)).1 ≤ a →
        a ≤ (rs.getD i (0, -1)).2 → l ≤ i ∧ (i : Int) ≤ r) →
      (searchRanges rs a l r = true ↔
        ∃ i : Nat, i < rs.length ∧ (rs.getD i (0, -1)).1 ≤ a ∧
          a ≤ (rs.getD i (0, -1)).2) := by
  intro n
  induction n with
  | zero =>
    intro l r hn hl hr hwin
    rw [searchRanges, if_neg (by omega)]
    constructor
    · intro h
      exact absurd h (by simp)
    · rintro ⟨i, hi, h1, h2⟩
      have := hwin i hi h1 h2
      omega
  | succ n ih =>
    intro l r hn hl hr hwin
    by_cases hlr : l ≤ r
    · rw [searchRanges, if_pos hlr]
      have hmidl : l ≤ (l + r) / 2 := by omega
      have hmidr : (l + r) / 2 ≤ r := by omega
      have hmidn : ((l + r) / 2).toNat < rs.length := by omega
      have hmidc : (((l + r) / 2).toNat : Int) = (l + r) / 2 := by omega
      have hmem : rs.getD ((l + r) / 2).toNat (0, -1) ∈ rs := by
        rw [getD_of_lt rs _ _ hmidn]
        exact List.getElem_mem hmidn
      have hmse := hse _ hmem
      by_cases hlt : a < (rs.getD ((l + r) / 2).toNat (0, -1)).1
      · rw [if_pos hlt]
        have hwin2 : ∀ i : Nat, i < rs.length → (rs.getD i (0, -1)).1 ≤ a →
            a ≤ (rs.getD i (0, -1)).2 → l ≤ i ∧ (i : Int) ≤ (l + r) / 2 - 1 := by
          intro i hi h1 h2
          obtain ⟨hwl, hwr⟩ := hwin i hi h1 h2
          refine ⟨hwl, ?_⟩
          rcases Nat.lt_trichotomy i ((l + r) / 2).toNat with hc | hc | hc
          · omega
          · rw [hc] at h1
            omega
          · have := hsd ((l + r) / 2).toNat i hc hi
            omega
        exact ih l ((l + r) / 2 - 1) (by omega) hl (by omega) hwin2
      · rw [if_neg hlt]
        by_cases hgt : (rs.getD ((l + r) / 2).toNat (0, -1)).2 < a
        · rw [if_pos hgt]
          have hwin2 : ∀ i : Nat, i < rs.length → (rs.getD i (0, -1)).1 ≤ a →
              a ≤ (rs.getD i (0, -1)).2 → (l + r) / 2 + 1 ≤ i ∧ (i : Int) ≤ r := by
            intro i hi h1 h2
            obtain ⟨hwl, hwr⟩ := hwin i hi h1 h2
            refine ⟨?_, hwr⟩
            rcases Nat.lt_trichotomy i ((l + r) / 2).toNat with hc | hc | hc
            · have := hsd i ((l + r) / 2).toNat hc hmidn
              omega
            · rw [hc] at h2
              omega
            · omega
          exact ih ((l + r) / 2 + 1) r (by omega) (by omega) hr hwin2
        · rw [if_neg hgt]
          constructor
          · intro _
            exact ⟨((l + r) / 2).toNat, hmidn, by omega, by omega⟩
          · intro _
            rfl
    · rw [searchRanges, if_neg hlr]
      constructor
      · intro h
        exact absurd h (by simp)
      · rintro ⟨i, hi, h1, h2⟩
        have := hwin i hi h1 h2
        omega

/-- The address-format predicate of the specification ("exactly 4
dot-separated decimal octets in 0–255"), stated from the spec's words so
that the parser claims can be formalised.  The parser itself
(`ipToNumber`) never checks anything like this. -/
def isValidIPv4 (s : JStr) : Bool :=
  (splitOnChar '.' s).length == 4 &&
    (splitOnChar '.' s).all fun p =>
      !p.isEmpty && p.all isDigit10 && digitsToNat 10 (p.map digitVal10) ≤ 255

/-- Claim C1: the PrefixTrie search contract fails on the code.  After
inserting the two prefixes `"00"` and `"01"` into a fresh tree, the query
`"01"` — which *equals* an inserted prefix, and therefore also starts with
one — is reported as not contained.  The second insertion splits the edge
`"00"`, rewrites the child's `value` to `"0"`, but leaves the parent map
key at `"00"`, so the search walk cannot enter the edge. -/
theorem C1_search_misses_inserted :
    RadixNode.search ((RadixNode.empty.insert (jstr "00")).insert (jstr "01"))
      (jstr "01") = false := by
  decide

/-- Claim C10: the key/fragment agreement invariant is not maintained.
After `insert "00"` then `insert "01"`, the root of the tree stores its
single child under the stale key `"00"` while that child's own `value`
field is `"0"`: the map keys used by `search` and `insert` disagree with
the node's stored fragment. -/
theorem C10_stale_child_key :
    RadixNode.childKeyMismatch
        ((RadixNode.empty.insert (jstr "00")).insert (jstr "01")) = true ∧
      ((RadixNode.empty.insert (jstr "00")).insert (jstr "01")).children.map
        (fun kc => (kc.1, kc.2.value)) = [(jstr "00", jstr "0")] := by
  constructor
  · decide
  · decide

/-- Claim C3: the Deduplicator does not discard every contained block.
On the candidate collection `{0.0.0.0/2, 64.0.0.0/2, 64.0.0.0/3}` the
filtering keeps all three entries, although the range of `64.0.0.0/3` is
contained in the kept `64.0.0.0/2` (its binary prefix `"01"` is a prefix
of `"010"`): the broken trie split makes the coverage search miss. -/
theorem C3_dedup_keeps_contained_block :
    filterContainedCIDRsRadix [jstr "0.0.0.0/2", jstr "64.0.0.0/2", jstr "64.0.0.0/3"] =
        [jstr "0.0.0.0/2", jstr "64.0.0.0/2", jstr "64.0.0.0/3"] ∧
      List.isPrefixOf (cidrToBinaryPrefix (jstr "64.0.0.0/2"))
        (cidrToBinaryPrefix (jstr "64.0.0.0/3")) = true := by
  constructor
  · decide
  · decide

/-- Claim C5 (counterexample): the address parser does not fail on
malformed input.  `"1.2.3"` is not a valid dotted quad, yet `ipToNumber`
silently returns the number `66051`; there is no validation or error path
anywhere in the function. -/
theorem C5_parser_accepts_malformed :
    isValidIPv4 (jstr "1.2.3") = false ∧ ipToNumber (jstr "1.2.3") = some 66051 := by
  constructor
  · decide
  · decide

/-- Claim C5 (amended): `ipToNumber` performs no validation at all — it
totally and silently converts every string, e.g. the three-octet
`"1.2.3"`, the out-of-range `"999.0.0.1"` (which wraps through the signed
32-bit shift), the five-octet `"1.2.3.4.5"`, and the non-numeric `"abc"`
(which yields `NaN`, still an ordinary return value rather than an
error). -/
theorem C5_amended_parser_never_fails :
    ipToNumber (jstr "1.2.3") = some 66051 ∧
      ipToNumber (jstr "999.0.0.1") = some (-419430399) ∧
      ipToNumber (jstr "1.2.3.4.5") = some 33752069 ∧
      ipToNumber (jstr "abc") = none := by
  refine ⟨?_, ?_, ?_, ?_⟩ <;> decide

/-- Claim C2: the decomposer misbehaves at the top of the address space.
For the full range `0.0.0.0 .. 255.255.255.255` (numeric start `0 ≤ end
`2^32 - 1`) the code throws "Start IP must be less than or equal to End
IP" instead of returning a covering block list: `ipToNumber` builds the
endpoints with the signed 32-bit `<<`, so `255.255.255.255` becomes `-1 <
0`. -/
theorem C2_full_range_throws :
    rangeToCIDRs (jstr "0.0.0.0") (jstr "255.255.255.255") =
      .error (jstr "Start IP must be less than or equal to End IP") := by
  decide

/-- Claim C7: for the pair `0.0.0.1 ≤ 255.255.255.255` (as 32-bit
unsigned values) no minimal cover is produced at all — the signed
endpoint comparison makes the decomposer throw, so the claimed
minimality/optimality property has no chance to hold on this input. -/
theorem C7_no_output_at_top_of_space :
    rangeToCIDRs (jstr "0.0.0.1") (jstr "255.255.255.255") =
      .error (jstr "Start IP must be less than or equal to End IP") := by
  decide

/-- Claim C6: the decomposer does not raise exactly on unsigned
`start > end`.  For `start = 128.0.0.0` and `end = 0.0.0.1` the unsigned
values satisfy `2^31 > 1`, so the claim demands an InvalidRange error;
but the signed endpoint numbers are `-2^31 ≤ 1`, so the code silently
returns the two blocks `128.0.0.0/1` and `0.0.0.0/31` instead of
raising.  (Conversely, `C2_full_range_throws` raises on an unsigned
`start ≤ end` pair.) -/
theorem C6_reversed_range_not_rejected :
    rangeToCIDRs (jstr "128.0.0.0") (jstr "0.0.0.1") =
      .ok [jstr "128.0.0.0/1", jstr "0.0.0.0/31"] := by
  have h1 : ipToNumber (jstr "128.0.0.0") = some (-2147483648) := by decide
  have h2 : ipToNumber (jstr "0.0.0.1") = some 1 := by decide
  have hm1 : rangeMaxSize (-2147483648) 1 = 1 := by decide
  have hm2 : rangeMaxSize 0 1 = 31 := by decide
  have hl3 : rangeLoop 1 2 = [] := by
    rw [rangeLoop]
    norm_num
  have hl2 : rangeLoop 1 0 = [jstr "0.0.0.0/31"] := by
    rw [rangeLoop, dif_pos (by norm_num : (0 : Int) ≤ 1), hm2]
    rw [show ((0 : Int) + 2 ^ (32 - 31)) = 2 by norm_num, hl3]
    decide
  have hl1 : rangeLoop 1 (-2147483648) = [jstr "128.0.0.0/1", jstr "0.0.0.0/31"] := by
    rw [rangeLoop, dif_pos (by norm_num : (-2147483648 : Int) ≤ 1), hm1]
    rw [show ((-2147483648 : Int) + 2 ^ (32 - 1)) = 0 by norm_num, hl2]
    decide
  simp only [rangeToCIDRs, h1, h2]
  rw [if_neg (by norm_num)]
  rw [hl1]

/-- Claim C8: querying an empty index — a fresh `IpChecker` before any
`load`, or one loaded from an empty list — answers "not blocked" for
every query (numeric, string-derived, or `NaN`) and cannot raise: with
`#ranges = []` the loop bounds are `left = 0 > -1 = right`, so the binary
search returns `false` immediately. -/
theorem C8_empty_index_not_blocked (ip : Option Int) :
    IpChecker.isBlocked [] ip = false := by
  cases ip with
  | none => rfl
  | some n =>
    simp only [IpChecker.isBlocked]
    rw [searchRanges, if_neg (by simp)]

/-- Claim C4: on an index loaded from entries whose numeric ranges are
pairwise disjoint and non-empty, `isBlocked` answers `true` exactly when
the queried numeric address lies within the inclusive `[start, end]`
bounds of some loaded entry, via the stated binary-search comparator. -/
theorem C4_isBlocked_iff_contained (lines : List JStr)
    (hdisj : (lines.map entryRange).Pairwise fun p q => p.2 < q.1 ∨ q.2 < p.1)
    (hne : ∀ e ∈ lines, (entryRange e).1 ≤ (entryRange e).2)
    (a : Int) :
    IpChecker.isBlocked (IpChecker.load lines) (some a) = true ↔
      ∃ e ∈ lines, (entryRange e).1 ≤ a ∧ a ≤ (entryRange e).2 := by
  have hperm : (IpChecker.load lines).Perm (lines.map entryRange) :=
    List.perm_insertionSort _ _
  have hse : ∀ p ∈ IpChecker.load lines, p.1 ≤ p.2 := by
    intro p hp
    obtain ⟨e, he, hpe⟩ := List.mem_map.mp (hperm.mem_iff.mp hp)
    rw [← hpe]
    exact hne e he
  have hsorted : (IpChecker.load lines).Pairwise rangeLE := by
    apply pairwise_insertionSort rangeLE (fun _ => True)
    · intro p q _ _
      unfold rangeLE
      omega
    · intro p q s _ _ _ h1 h2
      unfold rangeLE at h1 h2 ⊢
      omega
    · simp
  have hdisj2 : (IpChecker.load lines).Pairwise fun p q => p.2 < q.1 ∨ q.2 < p.1 :=
    (List.Perm.pairwise_iff (fun h => Or.symm h) hperm).mpr hdisj
  have hsd : ∀ i j : Nat, i < j → j < (IpChecker.load lines).length →
      ((IpChecker.load lines).getD i (0, -1)).2 <
        ((IpChecker.load lines).getD j (0, -1)).1 := by
    intro i j hij hj
    have hi : i < (IpChecker.load lines).length := lt_trans hij hj
    rw [getD_of_lt _ _ _ hi, getD_of_lt _ _ _ hj]
    have h1 := List.pairwise_iff_getElem.mp hsorted i j hi hj hij
    have h2 := List.pairwise_iff_getElem.mp hdisj2 i j hi hj hij
    have h3 : (IpChecker.load lines)[j].1 ≤ (IpChecker.load lines)[j].2 :=
      hse _ (List.getElem_mem hj)
    unfold rangeLE at h1
    rcases h2 with h | h
    · exact h
    · omega
  have hmain := searchRanges_iff (IpChecker.load lines) a hse hsd
    ((IpChecker.load lines).length + 1) 0 (((IpChecker.load lines).length : Int) - 1)
    (by omega) (by omega) (by omega)
    (by
      intro i hi h1 h2
      omega)
  simp only [IpChecker.isBlocked]
  rw [hmain]
  constructor
  · rintro ⟨i, hi, h1, h2⟩
    rw [getD_of_lt _ _ _ hi] at h1 h2
    obtain ⟨e, he, hpe⟩ := List.mem_map.mp (hperm.mem_iff.mp (List.getElem_mem hi))
    refine ⟨e, he, ?_, ?_⟩ <;> rw [hpe] <;> assumption
  · rintro ⟨e, he, h1, h2⟩
    have hmem : entryRange e ∈ IpChecker.load lines :=
      hperm.mem_iff.mpr (List.mem_map.mpr ⟨e, he, rfl⟩)
    obtain ⟨i, hi, hie⟩ := List.mem_iff_getElem.mp hmem
    refine ⟨i, hi, ?_, ?_⟩ <;> rw [getD_of_lt _ _ _ hi, hie] <;> assumption

/-- Witness for C4: the index loaded from `{1.1.1.0/24, 8.8.8.8}` blocks
the numeric value of `1.1.1.5`. -/
theorem C4_isBlocked_iff_contained_witness :
    IpChecker.isBlocked (IpChecker.load [jstr "1.1.1.0/24", jstr "8.8.8.8"])
      (some 16843013) = true :=
  (C4_isBlocked_iff_contained [jstr "1.1.1.0/24", jstr "8.8.8.8"] (by decide)
      (by decide) 16843013).mpr
    ⟨jstr "1.1.1.0/24", by decide, by decide, by decide⟩

/-- Claim C9 (counterexample): the Deduplicator is not idempotent on
every input collection.  On the seven entries below, a second run drops
the entry `96.0.0.0/3` that the first run had kept.  The two entries with
the unparsable masks `x` and `y` give the sort comparator `NaN`, which the
sort machinery treats as `+0`; on the first run they sit between the
`/2`s and the `/1`-less `/2` tail and the order happens to be stable, but
once the `5.6.7.8/y` entry is discarded the re-sorted output moves
`64.0.0.1/2` ahead of `96.0.0.0/3`, which is then judged covered. -/
theorem C9_dedup_not_idempotent :
    filterContainedCIDRsRadix (filterContainedCIDRsRadix
        [jstr "64.0.0.0/2", jstr "0.0.0.0/2", jstr "0.0.0.0/3", jstr "1.2.3.4/x",
          jstr "96.0.0.0/3", jstr "5.6.7.8/y", jstr "64.0.0.1/2"]) ≠
      filterContainedCIDRsRadix
        [jstr "64.0.0.0/2", jstr "0.0.0.0/2", jstr "0.0.0.0/3", jstr "1.2.3.4/x",
          jstr "96.0.0.0/3", jstr "5.6.7.8/y", jstr "64.0.0.1/2"] ∧
    jstr "96.0.0.0/3" ∈ filterContainedCIDRsRadix
        [jstr "64.0.0.0/2", jstr "0.0.0.0/2", jstr "0.0.0.0/3", jstr "1.2.3.4/x",
          jstr "96.0.0.0/3", jstr "5.6.7.8/y", jstr "64.0.0.1/2"] ∧
    jstr "96.0.0.0/3" ∉ filterContainedCIDRsRadix (filterContainedCIDRsRadix
        [jstr "64.0.0.0/2", jstr "0.0.0.0/2", jstr "0.0.0.0/3", jstr "1.2.3.4/x",
          jstr "96.0.0.0/3", jstr "5.6.7.8/y", jstr "64.0.0.1/2"]) := by
  refine ⟨?_, ?_, ?_⟩ <;> decide

/-- Claim C9 (amended): the Deduplicator *is* idempotent on every input
collection in which each slash-entry has a parsable numeric mask — then
the sort comparator is consistent, the sorted list is pairwise ordered,
the kept output (a sublist) re-sorts to itself, and the filtering loop
replays the identical keep/discard decisions. -/
theorem C9_amended_idempotent_on_good (l : List JStr) (h : ∀ e ∈ l, GoodEntry e) :
    filterContainedCIDRsRadix (filterContainedCIDRsRadix l) =
      filterContainedCIDRsRadix l := by
  unfold filterContainedCIDRsRadix
  have hsorted : (List.insertionSort compLE l).Pairwise compLE :=
    pairwise_insertionSort compLE GoodEntry compLE_total compLE_trans l h
  have hsub := dedupLoop_sublist RadixNode.empty (List.insertionSort compLE l)
  rw [insertionSort_eq_self_of_pairwise compLE _ (List.Pairwise.sublist hsub hsorted)]
  exact dedupLoop_idem _ _

/-- Witness for the amended C9 on the spec's own dedup scenario. -/
theorem C9_amended_idempotent_on_good_witness :
    filterContainedCIDRsRadix (filterContainedCIDRsRadix
        [jstr "192.168.0.0/16", jstr "192.168.1.0/24"]) =
      filterContainedCIDRsRadix [jstr "192.168.0.0/16", jstr "192.168.1.0/24"] :=
  C9_amended_idempotent_on_good [jstr "192.168.0.0/16", jstr "192.168.1.0/24"]
    (by decide)
